import Mathlib

/-!
Verification of the miniSAM inference-orchestration core.

The definitions below are a shallow embedding of the TypeScript sources in
`src/core/index.ts`, `src/core/utils/modelData.ts`,
`src/core/utils/preprocess.ts`, `src/core/utils/postprocess.ts` and
`src/core/constants.ts`.  JavaScript numbers are modelled by `ℚ`, typed
arrays (`Float32Array`, `Uint8ClampedArray`) by Lean lists written through
`List.set` in the order the imperative loops perform their writes, JS `Map`s
by functions into `Option`, and the asynchronous inference backends by
explicit function parameters.  Backend invocations are counted in the state,
mirroring call-count instrumentation on a stub backend.
-/

namespace MiniSAM

/-! ## Generic machinery: imperative array writes

A `Float32Array`/`Uint8ClampedArray` fill loop is modelled as a left fold of
`List.set` operations over the list of (index, value) writes the loop makes,
starting from the zero-initialized buffer. -/

/-- A sequence of (index, value) writes applied to a flat buffer, in order. -/
def arrWrites {α : Type} (ws : List (Nat × α)) (init : List α) : List α :=
  ws.foldl (fun b iv => b.set iv.1 iv.2) init

theorem arrWrites_nil {α : Type} (init : List α) : arrWrites [] init = init := rfl

theorem arrWrites_cons {α : Type} (p : Nat × α) (ws : List (Nat × α)) (init : List α) :
    arrWrites (p :: ws) init = arrWrites ws (init.set p.1 p.2) := rfl

theorem arrWrites_length {α : Type} (ws : List (Nat × α)) (init : List α) :
    (arrWrites ws init).length = init.length := by
  induction ws generalizing init with
  | nil => rfl
  | cons p tl ih => simpa [arrWrites_cons, List.length_set] using ih (init.set p.1 p.2)

theorem getD_set {α : Type} (l : List α) (k j : Nat) (v d : α) :
    (l.set k v).getD j d = if k = j ∧ k < l.length then v else l.getD j d := by
  rcases Nat.lt_or_ge k l.length with hk | hk
  · by_cases hkj : k = j
    · subst hkj
      simp [List.getD_eq_getElem?_getD, List.getElem?_set_self', hk,
        List.getElem?_eq_getElem (l := l) hk]
    · simp [List.getD_eq_getElem?_getD, List.getElem?_set_ne hkj, hkj]
  · rw [List.set_eq_of_length_le hk]
    have hc : ¬(k = j ∧ k < l.length) := by omega
    simp [hc]

/-- Value of a write-fold at an index, when every write's value is determined
by its index through `V`.  The written cells hold `V`, all others keep the
initial contents. -/
theorem arrWrites_getD {α : Type} (V : Nat → α) (ws : List (Nat × α))
    (hV : ∀ p ∈ ws, p.2 = V p.1) (init : List α) (j : Nat) (d : α) :
    (arrWrites ws init).getD j d =
      if j ∈ ws.map Prod.fst ∧ j < init.length then V j else init.getD j d := by
  induction ws generalizing init with
  | nil => simp [arrWrites_nil]
  | cons p tl ih =>
    have hp : p.2 = V p.1 := hV p (List.mem_cons_self p tl)
    have htl : ∀ q ∈ tl, q.2 = V q.1 := fun q hq => hV q (List.mem_cons_of_mem p hq)
    rw [arrWrites_cons, ih htl]
    rw [List.length_set, getD_set]
    rcases Nat.lt_or_ge j init.length with hlen | hlen
    · by_cases hmem : j ∈ tl.map Prod.fst
      · simp [hmem, hlen]
      · by_cases hpj : p.1 = j
        · subst hpj; simp [hmem, hlen, hp]
        · simp [hmem, hpj, hlen, Ne.symm hpj]
    · have h1 : ¬j < init.length := Nat.not_lt.mpr hlen
      have h2 : ¬(p.1 = j ∧ p.1 < init.length) := by omega
      by_cases hmem : j ∈ tl.map Prod.fst
      · simp [hmem, h1, h2]
      · simp [hmem, h1, h2]

/-! ## Data model

Click types, tensors, bitmaps and images, following `src/core/index.ts`. -/

/-- Source `ClickType` from `index.ts`: the string union `"include" | "exclude"`. -/
inductive ClickType where
  | Include
  | Exclude
deriving DecidableEq, Inhabited

/-- Source `Click` from `index.ts`: a user click in original-image pixel space. -/
structure Click where
  x : ℚ
  y : ℚ
  type : ClickType
deriving DecidableEq, Inhabited

/-- Source `clickTypeToSamLabel` from `index.ts`: Include -> 1, Exclude -> 0. -/
def clickTypeToSamLabel (type : ClickType) : ℚ :=
  if type = ClickType.Include then 1 else 0

/-- The click record taken by the module-level `segment` and by
`buildSamFeeds`: `{ x, y, clickType: 0 | 1 }`. -/
structure SamClick where
  x : ℚ
  y : ℚ
  clickType : ℚ
deriving DecidableEq, Inhabited

/-- An `onnxruntime-web` tensor: a flat numeric buffer plus a shape. -/
structure TensorQ where
  data : List ℚ
  dims : List Nat
deriving DecidableEq

/-- An `ImageData` bitmap: flat RGBA byte buffer plus width and height. -/
structure ImageDataM where
  data : List Nat
  width : Nat
  height : Nat
deriving DecidableEq

/-- A source image: an `HTMLImageElement` (with a `src` URL and natural
dimensions) or an `HTMLCanvasElement` (with width and height).  The
`resized` field abstracts the platform raster pipe: `resized nw nh i` is
byte `i` of the RGBA read-back after drawing the image scaled to
`nw × nh`, a quantity the browser's resampler determines. -/
inductive Image where
  | element (src : String) (naturalWidth naturalHeight : Nat) (resized : Nat → Nat → Nat → ℚ)
  | canvas (width height : Nat) (resized : Nat → Nat → Nat → ℚ)

/-- Original width of an image source (`naturalWidth` or canvas `width`). -/
def Image.origWidth : Image → Nat
  | .element _ w _ _ => w
  | .canvas w _ _ => w

/-- Original height of an image source (`naturalHeight` or canvas `height`). -/
def Image.origHeight : Image → Nat
  | .element _ _ h _ => h
  | .canvas _ h _ => h

/-- RGBA read-back of the image after platform resampling to `nw × nh`. -/
def Image.resizedData : Image → Nat → Nat → Nat → ℚ
  | .element _ _ _ r => r
  | .canvas _ _ r => r

/-- Source `ENCODER_INPUT_SIZE` from `constants.ts`. -/
def ENCODER_INPUT_SIZE : Nat := 1024

/-- Source `SAM_MASK_SIZE` from `constants.ts`. -/
def SAM_MASK_SIZE : Nat := 256

/-! ## Feed builder (`src/core/utils/modelData.ts`) -/

/-- The named decoder input set returned by `buildSamFeeds`. -/
structure SamFeeds (α : Type) where
  image_embeddings : α
  point_coords : TensorQ
  point_labels : TensorQ
  orig_im_size : TensorQ
  mask_input : TensorQ
  has_mask_input : TensorQ

/-- The writes of the click loop in `buildSamFeeds` into `pointCoords`:
for each `i < n`, cell `2*i` gets `clicks[i].x * samScale` and cell
`2*i+1` gets `clicks[i].y * samScale`; then the padding point writes
`0.0` at `2*n` and `2*n+1`. -/
def coordWrites (clicks : List SamClick) (samScale : ℚ) : List (Nat × ℚ) :=
  ((List.range clicks.length).flatMap fun i =>
    [(2 * i, (clicks.getD i default).x * samScale),
     (2 * i + 1, (clicks.getD i default).y * samScale)]) ++
  [(2 * clicks.length, 0), (2 * clicks.length + 1, 0)]

/-- The writes of the click loop in `buildSamFeeds` into `pointLabels`:
cell `i` gets `clicks[i].clickType` for `i < n`, then the padding point
writes `-1.0` at `n`. -/
def labelWrites (clicks : List SamClick) : List (Nat × ℚ) :=
  ((List.range clicks.length).map fun i =>
    (i, (clicks.getD i default).clickType)) ++
  [(clicks.length, -1)]

/-- Source `buildSamFeeds` from `modelData.ts`: scale clicks by
`1024 / max(originalWidth, originalHeight)`, append the padding point
`(0,0)` with label `-1`, pass the embedding through, and attach the
original-size, zero prior-mask and has-mask tensors. -/
def buildSamFeeds {α : Type} (clicks : List SamClick) (embedding : α)
    (originalWidth originalHeight : ℚ) : SamFeeds α :=
  let samScale : ℚ := 1024 / max originalWidth originalHeight
  let n := clicks.length
  let pointCoords := arrWrites (coordWrites clicks samScale) (List.replicate (2 * (n + 1)) 0)
  let pointLabels := arrWrites (labelWrites clicks) (List.replicate (n + 1) 0)
  { image_embeddings := embedding
    point_coords := { data := pointCoords, dims := [1, n + 1, 2] }
    point_labels := { data := pointLabels, dims := [1, n + 1] }
    orig_im_size := { data := [originalHeight, originalWidth], dims := [2] }
    mask_input := { data := List.replicate (SAM_MASK_SIZE * SAM_MASK_SIZE) 0
                    dims := [1, 1, SAM_MASK_SIZE, SAM_MASK_SIZE] }
    has_mask_input := { data := [0], dims := [1] } }

/-! ## Preprocessor (`src/core/utils/preprocess.ts`) -/

/-- JavaScript `Math.round`: round half toward positive infinity. -/
def jsRound (q : ℚ) : ℤ := ⌊q + 1 / 2⌋

/-- Source `PIXEL_MEAN` from `preprocess.ts` (RGB normalization means). -/
def PIXEL_MEAN : List ℚ := [123.675, 116.28, 103.53]

/-- Source `PIXEL_STD` from `preprocess.ts` (RGB normalization standard deviations). -/
def PIXEL_STD : List ℚ := [58.395, 57.12, 57.375]

/-- The quantity `scale = targetSize / Math.max(originalWidth, originalHeight)`. -/
def preScale (image : Image) (targetSize : Nat) : ℚ :=
  (targetSize : ℚ) / ((max image.origWidth image.origHeight : Nat) : ℚ)

/-- The quantity `newWidth = Math.round(originalWidth * scale)`. -/
def newWidthOf (image : Image) (targetSize : Nat) : Nat :=
  (jsRound ((image.origWidth : ℚ) * preScale image targetSize)).toNat

/-- The quantity `newHeight = Math.round(originalHeight * scale)`. -/
def newHeightOf (image : Image) (targetSize : Nat) : Nat :=
  (jsRound ((image.origHeight : ℚ) * preScale image targetSize)).toNat

/-- The writes of the copy-and-normalize loop in `preprocessImageForEncoder`:
for each `y < newHeight` and `x < newWidth`, with `i4 = (y*newWidth + x)*4`,
channel `c`'s plane cell `c*T*T + y*T + x` receives
`(pixelData[i4 + c] - PIXEL_MEAN[c]) / PIXEL_STD[c]`. -/
def chwWrites (newWidth newHeight targetSize : Nat) (pixelData : Nat → ℚ) :
    List (Nat × ℚ) :=
  (List.range newHeight).flatMap fun y =>
    (List.range newWidth).flatMap fun x =>
      let i4 := (y * newWidth + x) * 4
      [(0 * (targetSize * targetSize) + y * targetSize + x,
          (pixelData i4 - PIXEL_MEAN.getD 0 0) / PIXEL_STD.getD 0 0),
       (1 * (targetSize * targetSize) + y * targetSize + x,
          (pixelData (i4 + 1) - PIXEL_MEAN.getD 1 0) / PIXEL_STD.getD 1 0),
       (2 * (targetSize * targetSize) + y * targetSize + x,
          (pixelData (i4 + 2) - PIXEL_MEAN.getD 2 0) / PIXEL_STD.getD 2 0)]

/-- Result record of `preprocessImageForEncoder`. -/
structure PreprocessResult where
  tensor : TensorQ
  originalWidth : Nat
  originalHeight : Nat

/-- Source `preprocessImageForEncoder` from `preprocess.ts`: scale the longest side
to `targetSize`, read back the resized RGBA pixels, and copy-normalize them
into a zero-padded CHW float32 buffer of shape `[1, 3, T, T]`. -/
def preprocessImageForEncoder (image : Image) (targetSize : Nat) : PreprocessResult :=
  let originalWidth := image.origWidth
  let originalHeight := image.origHeight
  let newWidth := newWidthOf image targetSize
  let newHeight := newHeightOf image targetSize
  let pixelData := image.resizedData newWidth newHeight
  let channels := 3
  let float32Data :=
    arrWrites (chwWrites newWidth newHeight targetSize pixelData)
      (List.replicate (channels * targetSize * targetSize) 0)
  { tensor := { data := float32Data, dims := [1, channels, targetSize, targetSize] }
    originalWidth := originalWidth
    originalHeight := originalHeight }

/-! ## Postprocessor (`src/core/utils/postprocess.ts`) -/

/-- Source `maskToImageData` from `postprocess.ts`: a black bitmap whose alpha
channel is 255 exactly where the mask scalar is positive.  The loop over
the mask buffer writes 255 into byte `4*i + 3` whenever `mask[i] > 0`,
leaving the zero-initialized RGBA buffer untouched elsewhere. -/
def maskToImageData (mask : List ℚ) (maskWidth maskHeight : Nat) : ImageDataM :=
  let rgba :=
    (List.range mask.length).foldl
      (fun b i => if 0 < mask.getD i 0 then b.set (4 * i + 3) 255 else b)
      (List.replicate (4 * maskWidth * maskHeight) 0)
  { data := rgba, width := maskWidth, height := maskHeight }

/-! ## Orchestrator state (`src/core/index.ts`)

The module-level mutable variables of `index.ts` (`embeddingCache`,
`encoderSession`, `samSession`) are gathered into an explicit state record.
Backend invocations are counted, mirroring call-count instrumentation on
stub backends; the encoder and decoder backends themselves are function
parameters `enc` and `dec`. -/

/-- Errors surfaced by the core: calling before initialization
("Please call initSegmentation() ...") and "Session state not found". -/
inductive SamError where
  | precondition
  | notFound
deriving DecidableEq

/-- An `EmbeddingCache` entry: the encoder output plus the original
dimensions of the image that produced it. -/
structure EmbeddingEntry (α : Type) where
  embedding : α
  originalWidth : Nat
  originalHeight : Nat

/-- The module-level mutable state of `index.ts` relevant to segmentation,
with call counters for the preprocessor and the two backends. -/
structure CoreState (α : Type) where
  embeddingCache : String → Option (EmbeddingEntry α)
  encoderLoaded : Bool
  samLoaded : Bool
  preprocessRuns : Nat
  encoderRuns : Nat
  decoderRuns : Nat

/-- The map write `embeddingCache.set key entry`. -/
def cacheSet {α : Type} (cache : String → Option (EmbeddingEntry α)) (key : String)
    (entry : EmbeddingEntry α) : String → Option (EmbeddingEntry α) :=
  fun k => if k = key then some entry else cache k

/-- The image-key derivation used by `segment`, `precomputeEmbedding` and the
session constructor: the `src` URL for an `HTMLImageElement`, otherwise
`canvas_${width}x${height}_${Date.now()}`.  `now` is the wall clock value
`Date.now()` reads at the call. -/
def imageKeyOf (image : Image) (now : Nat) : String :=
  match image with
  | .element src _ _ _ => src
  | .canvas w h _ =>
      "canvas_" ++ Nat.repr w ++ "x" ++ Nat.repr h ++ "_" ++ Nat.repr now

/-- Steps 3-5 of `segment` in `index.ts`: build the SAM feeds from the
chosen embedding and dimensions, run the decoder and post-process its
first output into an `ImageData`. -/
def runDecoder {α : Type} (dec : SamFeeds α → TensorQ) (clicks : List SamClick)
    (embedding : α) (originalWidth originalHeight : Nat) (st : CoreState α) :
    CoreState α × Except SamError ImageDataM :=
  let feeds := buildSamFeeds clicks embedding (originalWidth : ℚ) (originalHeight : ℚ)
  let maskTensor := dec feeds
  ({ st with decoderRuns := st.decoderRuns + 1 },
   .ok (maskToImageData maskTensor.data
          (maskTensor.dims.getD 3 0) (maskTensor.dims.getD 2 0)))

/-- The module-level `segment` from `index.ts`: require both backends,
resolve the image key, reuse a cached embedding or preprocess + encode and
cache one, then decode and post-process. -/
def segment {α : Type} (enc : TensorQ → α) (dec : SamFeeds α → TensorQ)
    (image : Image) (now : Nat) (clicks : List SamClick) (st : CoreState α) :
    CoreState α × Except SamError ImageDataM :=
  if !st.encoderLoaded || !st.samLoaded then
    (st, .error .precondition)
  else
    let imageKey := imageKeyOf image now
    match st.embeddingCache imageKey with
    | some cached =>
        runDecoder dec clicks cached.embedding cached.originalWidth cached.originalHeight st
    | none =>
        let pre := preprocessImageForEncoder image ENCODER_INPUT_SIZE
        let embedding := enc pre.tensor
        let st' :=
          { st with
            preprocessRuns := st.preprocessRuns + 1
            encoderRuns := st.encoderRuns + 1
            embeddingCache :=
              cacheSet st.embeddingCache imageKey
                ⟨embedding, pre.originalWidth, pre.originalHeight⟩ }
        runDecoder dec clicks embedding pre.originalWidth pre.originalHeight st'

/-- Source `precomputeEmbedding` from `index.ts`: require the encoder backend,
resolve the image key, return it at once on a cache hit, otherwise
preprocess, encode, cache and return the key. -/
def precomputeEmbedding {α : Type} (enc : TensorQ → α) (image : Image) (now : Nat)
    (st : CoreState α) : CoreState α × Except SamError String :=
  if !st.encoderLoaded then
    (st, .error .precondition)
  else
    let imageKey := imageKeyOf image now
    if (st.embeddingCache imageKey).isSome then
      (st, .ok imageKey)
    else
      let pre := preprocessImageForEncoder image ENCODER_INPUT_SIZE
      let embedding := enc pre.tensor
      ({ st with
          preprocessRuns := st.preprocessRuns + 1
          encoderRuns := st.encoderRuns + 1
          embeddingCache :=
            cacheSet st.embeddingCache imageKey
              ⟨embedding, pre.originalWidth, pre.originalHeight⟩ },
       .ok imageKey)

/-- Source `clearEmbeddingCache` from `index.ts`. -/
def clearEmbeddingCache {α : Type} (st : CoreState α) : CoreState α :=
  { st with embeddingCache := fun _ => none }

/-! ## Session manager (`src/core/index.ts`, `SegmentationSession`)

`sessionStates` is the central `Map<string, SessionState>`; each method of
`SegmentationSession` reads it through the session identifier, failing with
"Session state not found" when the identifier is absent. -/

/-- Source `SessionState` from `index.ts`. -/
structure SessionState where
  imageKey : String
  clicks : List Click
  lastMask : Option ImageDataM
deriving DecidableEq

/-- The central `sessionStates` map. -/
def SessionStore : Type := String → Option SessionState

/-- The map write `sessionStates.set`. -/
def storeSet (ss : SessionStore) (sid : String) (st : SessionState) : SessionStore :=
  fun k => if k = sid then some st else ss k

/-- The map removal `sessionStates.delete`. -/
def storeDelete (ss : SessionStore) (sid : String) : SessionStore :=
  fun k => if k = sid then none else ss k

/-- The empty `sessionStates` map. -/
def emptyStore : SessionStore := fun _ => none

/-- The session-identifier generator of the `SegmentationSession`
constructor: `session_${Date.now()}_${rand}` where `rand` is the value of
`Math.random().toString(36).substr(2, 9)` the constructor draws. -/
def sessionIdOf (now : Nat) (rand : String) : String :=
  "session_" ++ Nat.repr now ++ "_" ++ rand

/-- The `SegmentationSession` constructor (via `createSession`): generate a
session identifier, derive the image key, and store a fresh state with no
clicks and no last mask.  Returns the updated store plus the identifier. -/
def createSession (image : Image) (now : Nat) (rand : String) (ss : SessionStore) :
    SessionStore × String :=
  let sid := sessionIdOf now rand
  let imageKey := imageKeyOf image now
  (storeSet ss sid { imageKey := imageKey, clicks := [], lastMask := none }, sid)

/-- Source `SegmentationSession.addClick`: append a click, or fail when the
session state is not found. -/
def addClick (sid : String) (x y : ℚ) (type : ClickType) (ss : SessionStore) :
    SessionStore × Except SamError Unit :=
  match ss sid with
  | none => (ss, .error .notFound)
  | some st =>
      (storeSet ss sid { st with clicks := st.clicks ++ [⟨x, y, type⟩] }, .ok ())

/-- Source `SegmentationSession.removeLastClick`: pop the most recent click when
one exists; a no-op on an empty click list. -/
def removeLastClick (sid : String) (ss : SessionStore) :
    SessionStore × Except SamError Unit :=
  match ss sid with
  | none => (ss, .error .notFound)
  | some st =>
      if st.clicks.length > 0 then
        (storeSet ss sid { st with clicks := st.clicks.dropLast }, .ok ())
      else
        (ss, .ok ())

/-- Source `SegmentationSession.reset`: clear clicks and last mask. -/
def reset (sid : String) (ss : SessionStore) : SessionStore × Except SamError Unit :=
  match ss sid with
  | none => (ss, .error .notFound)
  | some st =>
      (storeSet ss sid { st with clicks := [], lastMask := none }, .ok ())

/-- Source `SegmentationSession.getClicks`: return a copy (`[...state.clicks]`) of
the click list.  In this value-level model the copy is the list itself; the
reference-level model below (`getClicksR`) captures the aliasing behaviour. -/
def getClicks (sid : String) (ss : SessionStore) :
    SessionStore × Except SamError (List Click) :=
  match ss sid with
  | none => (ss, .error .notFound)
  | some st => (ss, .ok st.clicks)

/-- Source `SegmentationSession.getClickCount`. -/
def getClickCount (sid : String) (ss : SessionStore) :
    SessionStore × Except SamError Nat :=
  match ss sid with
  | none => (ss, .error .notFound)
  | some st => (ss, .ok st.clicks.length)

/-- Source `SegmentationSession.getLastMask`. -/
def getLastMask (sid : String) (ss : SessionStore) :
    SessionStore × Except SamError (Option ImageDataM) :=
  match ss sid with
  | none => (ss, .error .notFound)
  | some st => (ss, .ok st.lastMask)

/-- Source `SegmentationSession.dispose`: remove the session from the store. -/
def dispose (sid : String) (ss : SessionStore) : SessionStore :=
  storeDelete ss sid

/-- Source `SegmentationSession.segment`: return `null` without touching the
inference pipeline when the click list is empty, otherwise convert the
clicks to SAM format and delegate to the module-level `segment`, recording
the produced mask.  On a thrown error the stored state is left as it was. -/
def sessionSegment {α : Type} (enc : TensorQ → α) (dec : SamFeeds α → TensorQ)
    (sid : String) (image : Image) (now : Nat) (ss : SessionStore) (st : CoreState α) :
    SessionStore × CoreState α × Except SamError (Option ImageDataM) :=
  match ss sid with
  | none => (ss, st, .error .notFound)
  | some state =>
      if state.clicks.length = 0 then
        (storeSet ss sid { state with lastMask := none }, st, .ok none)
      else
        let samClicks := state.clicks.map fun c => ⟨c.x, c.y, clickTypeToSamLabel c.type⟩
        match segment enc dec image now samClicks st with
        | (st', .ok mask) =>
            (storeSet ss sid { state with lastMask := some mask }, st', .ok (some mask))
        | (st', .error e) => (ss, st', .error e)

/-! ## Initialization gate (`initSegmentation` in `src/core/index.ts`)

`initSegmentation` runs synchronously up to the creation of the
initialization promise (JavaScript's event loop only suspends at `await`),
so a call is modelled in two phases: `initBegin` is the synchronous body —
the in-flight check, the loaded-and-no-options fast path, and the setting of
`isInitializing` plus the allocation of `initializationPromise` — and
`initRun` is the asynchronous load body that later resolves that promise.
Promises are identified by allocation numbers. -/

/-- The options record accepted by `initSegmentation`; a field an absent key
on the options object is `none` (`hasOwnProperty` is modelled by `isSome`). -/
structure InitOpts where
  encoderModelPath : Option String
  samModelPath : Option String

/-- The module-level initialization state of `index.ts`
(`isInitializing`, `initializationPromise`, `encoderSession`,
`samSession`) plus a counter of `loadModel` attempts per model. -/
structure InitState where
  isInitializing : Bool
  initializationPromise : Option Nat
  promiseCounter : Nat
  encoderLoaded : Bool
  samLoaded : Bool
  encoderLoadAttempts : Nat
  samLoadAttempts : Nat
deriving DecidableEq

/-- What a call to `initSegmentation` returns to its caller. -/
inductive InitOutcome where
  | attached (p : Nat)
  | immediate
  | started (p : Nat)
deriving DecidableEq

/-- Synchronous body of `initSegmentation`: attach to the pending promise if
already initializing; return at once if both models are loaded and no
options were supplied; otherwise flag initialization and allocate the
promise the asynchronous body will resolve. -/
def initBegin (opts : Option InitOpts) (st : InitState) : InitState × InitOutcome :=
  if st.isInitializing then
    (st, .attached (st.initializationPromise.getD 0))
  else if st.encoderLoaded && st.samLoaded && opts.isNone then
    (st, .immediate)
  else
    ({ st with
        isInitializing := true
        initializationPromise := some st.promiseCounter
        promiseCounter := st.promiseCounter + 1 },
     .started st.promiseCounter)

/-- Asynchronous body of `initSegmentation` (the successful path): load the
encoder when absent or explicitly overridden, then the decoder likewise,
finally clearing `isInitializing`. -/
def initRun (opts : Option InitOpts) (st : InitState) : InitState :=
  let options := opts.getD { encoderModelPath := none, samModelPath := none }
  let st₁ :=
    if !st.encoderLoaded || options.encoderModelPath.isSome then
      { st with encoderLoaded := true, encoderLoadAttempts := st.encoderLoadAttempts + 1 }
    else st
  let st₂ :=
    if !st₁.samLoaded || options.samModelPath.isSome then
      { st₁ with samLoaded := true, samLoadAttempts := st₁.samLoadAttempts + 1 }
    else st₁
  { st₂ with isInitializing := false }

/-! ## Reference-level model of the click array (`getClicks` copying)

JavaScript arrays are heap references; `state.clicks.push(click)` mutates
through the reference stored in `sessionStates`, while
`return [...state.clicks]` in `getClicks` allocates a fresh array whose
contents are copied.  The heap maps array references (allocation numbers)
to click lists; allocation hands out `nextRef` and bumps it, so every live
reference is below `nextRef`. -/

/-- The JavaScript heap restricted to click arrays. -/
structure JsHeap where
  arrays : Nat → Option (List Click)
  nextRef : Nat

/-- Allocate a fresh array holding `v`, returning the heap and reference. -/
def heapAlloc (h : JsHeap) (v : List Click) : JsHeap × Nat :=
  ({ arrays := Function.update h.arrays h.nextRef (some v), nextRef := h.nextRef + 1 },
   h.nextRef)

/-- Overwrite the array behind reference `r` (a caller-side mutation, or a
`push` through a stored reference). -/
def heapWrite (h : JsHeap) (r : Nat) (v : List Click) : JsHeap :=
  { h with arrays := Function.update h.arrays r (some v) }

/-- Session state at reference level: the click list lives behind a heap
reference. -/
structure SessionStateR where
  imageKey : String
  clicksRef : Nat
  lastMask : Option ImageDataM

/-- Reference-level `getClicks`: look the session up, read the stored click
array and return a freshly allocated copy of it (`[...state.clicks]`). -/
def getClicksR (sid : String) (ss : String → Option SessionStateR) (h : JsHeap) :
    JsHeap × Except SamError Nat :=
  match ss sid with
  | none => (h, .error .notFound)
  | some st =>
      let contents := (h.arrays st.clicksRef).getD []
      let alloc := heapAlloc h contents
      (alloc.1, .ok alloc.2)

/-- Reference-level `addClick`: push through the stored reference. -/
def addClickR (sid : String) (x y : ℚ) (type : ClickType)
    (ss : String → Option SessionStateR) (h : JsHeap) :
    JsHeap × Except SamError Unit :=
  match ss sid with
  | none => (h, .error .notFound)
  | some st =>
      (heapWrite h st.clicksRef (((h.arrays st.clicksRef).getD []) ++ [⟨x, y, type⟩]),
       .ok ())

/-! ## Decimal rendering facts

`sessionIdOf` and `imageKeyOf` interpolate numbers into template strings,
which is `Nat.repr`.  The lemmas below characterize `Nat.repr` as a
big-endian digit list, show it never contains an underscore, and show it is
injective — the ingredients for reasoning about identifier collisions. -/

/-- Big-endian decimal digit characters of a natural number: the functional
reading of `Nat.toDigitsCore` at base 10. -/
def decChars (n : Nat) : List Char :=
  if _h : n < 10 then [Nat.digitChar n]
  else decChars (n / 10) ++ [Nat.digitChar (n % 10)]
decreasing_by exact Nat.div_lt_self (by omega) (by omega)

theorem toDigitsCore_eq_decChars :
    ∀ fuel n ds, n < fuel → Nat.toDigitsCore 10 fuel n ds = decChars n ++ ds := by
  intro fuel
  induction fuel with
  | zero => intro n ds h; omega
  | succ fuel ih =>
    intro n ds h
    rw [Nat.toDigitsCore]
    by_cases hn : n < 10
    · have hdiv : n / 10 = 0 := Nat.div_eq_of_lt hn
      rw [decChars]
      simp [hdiv, hn, Nat.mod_eq_of_lt hn]
    · have hdiv : ¬n / 10 = 0 := by omega
      have hlt : n / 10 < fuel := by omega
      simp only [hdiv, if_false]
      rw [ih (n / 10) _ hlt]
      conv_rhs => rw [decChars]
      simp [hn]

theorem repr_eq_decChars (n : Nat) : Nat.repr n = (decChars n).asString := by
  unfold Nat.repr Nat.toDigits
  rw [toDigitsCore_eq_decChars (n + 1) n [] (Nat.lt_succ_self n), List.append_nil]

/-- Numeric value of a decimal digit character. -/
def decVal (c : Char) : Nat := c.toNat - 48

theorem decVal_digitChar : ∀ d, d < 10 → decVal (Nat.digitChar d) = d := by decide

theorem digitChar_ne_underscore : ∀ d, d < 10 → Nat.digitChar d ≠ '_' := by decide

theorem underscore_not_mem_decChars (n : Nat) : '_' ∉ decChars n := by
  induction n using Nat.strong_induction_on with
  | _ n ih =>
    by_cases hn : n < 10
    · rw [decChars]
      simp only [hn, dite_true, List.mem_singleton]
      exact fun h => digitChar_ne_underscore n hn h.symm
    · rw [decChars]
      simp only [hn, dite_false, List.mem_append, List.mem_singleton]
      push_neg
      refine ⟨ih (n / 10) (Nat.div_lt_self (by omega) (by omega)), ?_⟩
      exact fun h => digitChar_ne_underscore (n % 10) (Nat.mod_lt n (by omega)) h.symm

theorem parseDec_decChars (n : Nat) :
    ∀ acc, List.foldl (fun acc c => acc * 10 + decVal c) acc (decChars n) =
      acc * 10 ^ (decChars n).length + n := by
  induction n using Nat.strong_induction_on with
  | _ n ih =>
    intro acc
    rw [decChars]
    by_cases hn : n < 10
    · simp [hn, decVal_digitChar n hn]
    · have hlt : n / 10 < n := Nat.div_lt_self (by omega) (by omega)
      simp only [hn, dite_false, List.foldl_append, List.length_append,
        List.foldl_cons, List.foldl_nil, List.length_singleton]
      rw [ih (n / 10) hlt acc, decVal_digitChar (n % 10) (Nat.mod_lt n (by omega))]
      rw [pow_succ]
      have : (acc * 10 ^ (decChars (n / 10)).length + n / 10) * 10 + n % 10 =
          acc * (10 ^ (decChars (n / 10)).length * 10) + (10 * (n / 10) + n % 10) := by
        ring
      rw [this, Nat.div_add_mod]

theorem decChars_inj {m n : Nat} (h : decChars m = decChars n) : m = n := by
  have hm := parseDec_decChars m 0
  have hn := parseDec_decChars n 0
  rw [h] at hm
  omega

theorem repr_nat_inj {m n : Nat} (h : Nat.repr m = Nat.repr n) : m = n := by
  rw [repr_eq_decChars, repr_eq_decChars] at h
  exact decChars_inj (by simpa [List.asString] using congrArg String.data h)

theorem underscore_not_mem_repr (n : Nat) : '_' ∉ (Nat.repr n).data := by
  rw [repr_eq_decChars]
  simpa [List.asString] using underscore_not_mem_decChars n

/-- Splitting a character list at a separator absent from both prefixes. -/
theorem append_sep_inj :
    ∀ (l₁ l₂ r₁ r₂ : List Char), '_' ∉ l₁ → '_' ∉ l₂ →
      l₁ ++ '_' :: r₁ = l₂ ++ '_' :: r₂ → l₁ = l₂ ∧ r₁ = r₂ := by
  intro l₁
  induction l₁ with
  | nil =>
    intro l₂ r₁ r₂ _ h₂ h
    cases l₂ with
    | nil => simpa using h
    | cons c l₂ =>
      simp only [List.nil_append, List.cons_append, List.cons.injEq] at h
      exact absurd (h.1 ▸ List.mem_cons_self c l₂) h₂
  | cons c l₁ ih =>
    intro l₂ r₁ r₂ h₁ h₂ h
    cases l₂ with
    | nil =>
      simp only [List.cons_append, List.nil_append, List.cons.injEq] at h
      exact absurd (h.1 ▸ List.mem_cons_self c l₁) h₁
    | cons d l₂ =>
      simp only [List.cons_append, List.cons.injEq] at h
      have := ih l₂ r₁ r₂ (fun hm => h₁ (List.mem_cons_of_mem c hm))
        (fun hm => h₂ (List.mem_cons_of_mem d hm)) h.2
      exact ⟨by rw [h.1, this.1], this.2⟩

/-- The generated session identifiers are distinct exactly when the drawn
(timestamp, random-component) pairs are: `session_${t}_${r}` determines
`t` and `r`, because the timestamp's decimal digits contain no underscore,
making the separator that follows them unambiguous. -/
theorem sessionIdOf_inj (t₁ t₂ : Nat) (r₁ r₂ : String)
    (h : sessionIdOf t₁ r₁ = sessionIdOf t₂ r₂) : t₁ = t₂ ∧ r₁ = r₂ := by
  have hd := congrArg String.data h
  have hu : ("_" : String).data = ['_'] := rfl
  simp only [sessionIdOf, String.data_append, hu, List.append_assoc,
    List.singleton_append] at hd
  have hd' := List.append_cancel_left hd
  have hsplit := append_sep_inj (Nat.repr t₁).data (Nat.repr t₂).data r₁.data r₂.data
    (underscore_not_mem_repr t₁) (underscore_not_mem_repr t₂) hd'
  exact ⟨repr_nat_inj (String.ext hsplit.1), String.ext hsplit.2⟩

/-! ## Concrete fixtures used by witness instantiations -/

/-- A concrete 4×2 image element with an all-zero resized read-back. -/
def img0 : Image := .element "img" 4 2 (fun _ _ _ => 0)

/-- A stub encoder backend over `Nat` embeddings. -/
def enc0 : TensorQ → Nat := fun _ => 7

/-- A stub decoder backend returning a fixed 2×1 mask tensor. -/
def dec0 : SamFeeds Nat → TensorQ := fun _ => { data := [1, 0], dims := [1, 1, 1, 2] }

/-- A core state with both backends loaded and an empty cache. -/
def st0 : CoreState Nat :=
  { embeddingCache := fun _ => none
    encoderLoaded := true
    samLoaded := true
    preprocessRuns := 0
    encoderRuns := 0
    decoderRuns := 0 }

/-- The fresh initialization state: nothing loaded, nothing in flight. -/
def initFresh : InitState :=
  { isInitializing := false
    initializationPromise := none
    promiseCounter := 0
    encoderLoaded := false
    samLoaded := false
    encoderLoadAttempts := 0
    samLoadAttempts := 0 }

/-- A concrete heap with one click array at reference 0. -/
def heap0 : JsHeap :=
  { arrays := fun r => if r = 0 then some [⟨1, 2, ClickType.Include⟩] else none
    nextRef := 1 }

/-- A concrete reference-level session store with one session `s`. -/
def ssR0 : String → Option SessionStateR :=
  fun k =>
    if k = "s" then some { imageKey := "img", clicksRef := 0, lastMask := none }
    else none

/-! ## Claim theorems -/

/-- C2: for every active session whose click list is empty,
`session.segment(image)` sets the session's last mask to null and returns
null without invoking any inference — the core state (and with it every
preprocessor/encoder/decoder call counter) is returned unchanged. -/
theorem session_segment_empty_clicks {α : Type} (enc : TensorQ → α)
    (dec : SamFeeds α → TensorQ) (sid : String) (image : Image) (now : Nat)
    (ss : SessionStore) (st : CoreState α) (state : SessionState)
    (hs : ss sid = some state) (hempty : state.clicks = []) :
    sessionSegment enc dec sid image now ss st =
      (storeSet ss sid { state with lastMask := none }, st, .ok none) := by
  unfold sessionSegment
  rw [hs]
  simp [hempty]

/-- Witness for C2: a concrete session with no clicks yields `null` and an
untouched core state. -/
theorem session_segment_empty_clicks_witness :
    sessionSegment enc0 dec0 "s" img0 0
        (storeSet emptyStore "s" { imageKey := "img", clicks := [], lastMask := none }) st0 =
      (storeSet (storeSet emptyStore "s" { imageKey := "img", clicks := [], lastMask := none })
        "s" { imageKey := "img", clicks := [], lastMask := none }, st0, .ok none) :=
  session_segment_empty_clicks enc0 dec0 "s" img0 0 _ st0
    { imageKey := "img", clicks := [], lastMask := none } (by simp [storeSet]) rfl

/-- C7: when either backend is missing, the module-level `segment` rejects
with the precondition error and leaves the state — cache and every call
counter — exactly as it was. -/
theorem segment_requires_init {α : Type} (enc : TensorQ → α) (dec : SamFeeds α → TensorQ)
    (image : Image) (now : Nat) (clicks : List SamClick) (st : CoreState α)
    (h : st.encoderLoaded = false ∨ st.samLoaded = false) :
    segment enc dec image now clicks st = (st, .error .precondition) := by
  unfold segment
  rcases h with h | h <;> simp [h]

/-- Witness for C7: segmenting with the decoder backend missing fails with
the precondition error. -/
theorem segment_requires_init_witness :
    segment enc0 dec0 img0 0 [] { st0 with samLoaded := false } =
      ({ st0 with samLoaded := false }, .error .precondition) :=
  segment_requires_init enc0 dec0 img0 0 [] { st0 with samLoaded := false } (Or.inr rfl)

/-- C8: after `dispose(sessionId)` removes a session from the central store,
every subsequent session operation on that identifier fails with the
not-found error (and leaves every store unchanged). -/
theorem disposed_session_ops_fail {α : Type} (enc : TensorQ → α)
    (dec : SamFeeds α → TensorQ) (sid : String) (ss : SessionStore)
    (x y : ℚ) (type : ClickType) (image : Image) (now : Nat) (st : CoreState α) :
    addClick sid x y type (dispose sid ss) = (dispose sid ss, .error .notFound) ∧
    removeLastClick sid (dispose sid ss) = (dispose sid ss, .error .notFound) ∧
    reset sid (dispose sid ss) = (dispose sid ss, .error .notFound) ∧
    getClicks sid (dispose sid ss) = (dispose sid ss, .error .notFound) ∧
    getClickCount sid (dispose sid ss) = (dispose sid ss, .error .notFound) ∧
    sessionSegment enc dec sid image now (dispose sid ss) st =
      (dispose sid ss, st, .error .notFound) ∧
    getLastMask sid (dispose sid ss) = (dispose sid ss, .error .notFound) := by
  have hnone : dispose sid ss sid = none := by simp [dispose, storeDelete]
  refine ⟨?_, ?_, ?_, ?_, ?_, ?_, ?_⟩ <;>
    first
      | (unfold addClick; rw [hnone])
      | (unfold removeLastClick; rw [hnone])
      | (unfold reset; rw [hnone])
      | (unfold getClicks; rw [hnone])
      | (unfold getClickCount; rw [hnone])
      | (unfold sessionSegment; rw [hnone])
      | (unfold getLastMask; rw [hnone])

/-- Reading a constant list with `getD` at its own element gives that element. -/
theorem getD_replicate {α : Type} (n j : Nat) (a : α) :
    (List.replicate n a).getD j a = a := by
  rcases Nat.lt_or_ge j n with h | h
  · simp [List.getD_eq_getElem?_getD, List.getElem?_replicate, h]
  · simp [List.getD_eq_getElem?_getD, List.getElem?_replicate, Nat.not_lt.mpr h]

/-- Contents of the alpha-write loop of `maskToImageData`: a byte is 255
exactly when some loop iteration `i` with a positive mask scalar targeted
it in range, and keeps its initial value otherwise. -/
theorem mask_loop_getD (mask : List ℚ) (l : List Nat) (init : List Nat) (j : Nat) :
    (l.foldl (fun b i => if 0 < mask.getD i 0 then b.set (4 * i + 3) 255 else b)
        init).getD j 0 =
      if j < init.length ∧ ∃ i ∈ l, 0 < mask.getD i 0 ∧ j = 4 * i + 3 then 255
      else init.getD j 0 := by
  induction l generalizing init with
  | nil => simp
  | cons a l ih =>
    simp only [List.foldl_cons]
    by_cases ha : 0 < mask.getD a 0
    · rw [if_pos ha, ih, List.length_set]
      by_cases hex : j < init.length ∧ ∃ i ∈ l, 0 < mask.getD i 0 ∧ j = 4 * i + 3
      · rw [if_pos hex]
        have : j < init.length ∧ ∃ i ∈ a :: l, 0 < mask.getD i 0 ∧ j = 4 * i + 3 := by
          obtain ⟨hj, i, hi, hp⟩ := hex
          exact ⟨hj, i, List.mem_cons_of_mem a hi, hp⟩
        rw [if_pos this]
      · rw [if_neg hex, getD_set]
        by_cases hja : 4 * a + 3 = j ∧ 4 * a + 3 < init.length
        · rw [if_pos hja]
          have : j < init.length ∧ ∃ i ∈ a :: l, 0 < mask.getD i 0 ∧ j = 4 * i + 3 := by
            exact ⟨hja.1 ▸ hja.2, a, List.mem_cons_self a l, ha, hja.1.symm⟩
          rw [if_pos this]
        · rw [if_neg hja, if_neg]
          rintro ⟨hj, i, hi, hp, hji⟩
          rcases List.mem_cons.mp hi with rfl | hi
          · exact hja ⟨hji.symm, hji ▸ hj⟩
          · exact hex ⟨hj, i, hi, hp, hji⟩
    · rw [if_neg ha, ih]
      by_cases hex : j < init.length ∧ ∃ i ∈ l, 0 < mask.getD i 0 ∧ j = 4 * i + 3
      · rw [if_pos hex]
        have : j < init.length ∧ ∃ i ∈ a :: l, 0 < mask.getD i 0 ∧ j = 4 * i + 3 := by
          obtain ⟨hj, i, hi, hp⟩ := hex
          exact ⟨hj, i, List.mem_cons_of_mem a hi, hp⟩
        rw [if_pos this]
      · rw [if_neg hex, if_neg]
        rintro ⟨hj, i, hi, hp, hji⟩
        rcases List.mem_cons.mp hi with rfl | hi
        · exact ha hp
        · exact hex ⟨hj, i, hi, hp, hji⟩

/-- C6: for every mask buffer of length `w*h` and pixel index `i`, the
postprocessed bitmap carries alpha 255 at pixel `i` exactly when the source
scalar is strictly positive (else alpha 0), and the R, G, B bytes are 0. -/
theorem maskToImageData_contract (mask : List ℚ) (w h : Nat)
    (hlen : mask.length = w * h) (i : Nat) (hi : i < w * h) :
    (maskToImageData mask w h).data.getD (4 * i + 3) 0 =
        (if 0 < mask.getD i 0 then 255 else 0) ∧
    (maskToImageData mask w h).data.getD (4 * i) 0 = 0 ∧
    (maskToImageData mask w h).data.getD (4 * i + 1) 0 = 0 ∧
    (maskToImageData mask w h).data.getD (4 * i + 2) 0 = 0 := by
  have h4 : 4 * w * h = 4 * (w * h) := by ring
  unfold maskToImageData
  refine ⟨?_, ?_, ?_, ?_⟩
  · rw [mask_loop_getD, List.length_replicate]
    have hiff : (∃ k ∈ List.range mask.length, 0 < mask.getD k 0 ∧ 4 * i + 3 = 4 * k + 3)
        ↔ 0 < mask.getD i 0 := by
      constructor
      · rintro ⟨k, hk, hp, he⟩
        have : k = i := by omega
        exact this ▸ hp
      · intro hp
        exact ⟨i, List.mem_range.mpr (by omega), hp, rfl⟩
    by_cases hp : 0 < mask.getD i 0
    · rw [if_pos ⟨by omega, hiff.mpr hp⟩, if_pos hp]
    · rw [if_neg (fun hc => hp (hiff.mp hc.2)), if_neg hp, getD_replicate]
  · rw [mask_loop_getD, List.length_replicate, if_neg, getD_replicate]
    rintro ⟨_, k, _, _, he⟩
    omega
  · rw [mask_loop_getD, List.length_replicate, if_neg, getD_replicate]
    rintro ⟨_, k, _, _, he⟩
    omega
  · rw [mask_loop_getD, List.length_replicate, if_neg, getD_replicate]
    rintro ⟨_, k, _, _, he⟩
    omega

/-- Witness for C6: the spec's example — mask `[0, 1, -1, 0.5]` over a 2×2
image gives alpha channel `[0, 255, 0, 255]` with zero RGB bytes. -/
theorem maskToImageData_contract_witness :
    (maskToImageData [0, 1, -1, 0.5] 2 2).data.getD 3 0 = 0 ∧
    (maskToImageData [0, 1, -1, 0.5] 2 2).data.getD 7 0 = 255 ∧
    (maskToImageData [0, 1, -1, 0.5] 2 2).data.getD 11 0 = 0 ∧
    (maskToImageData [0, 1, -1, 0.5] 2 2).data.getD 15 0 = 255 ∧
    (maskToImageData [0, 1, -1, 0.5] 2 2).data.getD 0 0 = 0 ∧
    (maskToImageData [0, 1, -1, 0.5] 2 2).data.getD 5 0 = 0 := by
  have h0 := maskToImageData_contract [0, 1, -1, 0.5] 2 2 (by decide) 0 (by decide)
  have h1 := maskToImageData_contract [0, 1, -1, 0.5] 2 2 (by decide) 1 (by decide)
  have h2 := maskToImageData_contract [0, 1, -1, 0.5] 2 2 (by decide) 2 (by decide)
  have h3 := maskToImageData_contract [0, 1, -1, 0.5] 2 2 (by decide) 3 (by decide)
  have hq : (0 : ℚ) < 0.5 := by norm_num
  refine ⟨?_, ?_, ?_, ?_, ?_, ?_⟩
  · simpa using h0.1
  · simpa using h1.1
  · simpa using h2.1
  · simpa [hq] using h3.1
  · simpa using h0.2.1
  · simpa using h1.2.2.1

/-- C3: while an initialization is in flight, a concurrent call to
`initSegmentation` attaches to the same pending completion instead of
starting a second load, so two callers racing before the first load
completes cause exactly one backend-load attempt per model.  The first
call starts promise `p` synchronously; the second call, arriving while
`isInitializing` holds, returns that same `p` without changing the state;
the asynchronous body then performs exactly one load per model. -/
theorem init_concurrent_single_load (opts₁ opts₂ : Option InitOpts) (st₀ : InitState)
    (hflag : st₀.isInitializing = false) (henc : st₀.encoderLoaded = false)
    (hsam : st₀.samLoaded = false) :
    (initBegin opts₁ st₀).2 = .started st₀.promiseCounter ∧
    initBegin opts₂ (initBegin opts₁ st₀).1 =
      ((initBegin opts₁ st₀).1, .attached st₀.promiseCounter) ∧
    (initRun opts₁ (initBegin opts₁ st₀).1).encoderLoadAttempts =
      st₀.encoderLoadAttempts + 1 ∧
    (initRun opts₁ (initBegin opts₁ st₀).1).samLoadAttempts =
      st₀.samLoadAttempts + 1 := by
  have h1 : initBegin opts₁ st₀ =
      ({ st₀ with
          isInitializing := true
          initializationPromise := some st₀.promiseCounter
          promiseCounter := st₀.promiseCounter + 1 },
       .started st₀.promiseCounter) := by
    unfold initBegin
    simp [hflag, henc]
  refine ⟨by rw [h1], ?_, ?_, ?_⟩
  · rw [h1]
    unfold initBegin
    simp
  · rw [h1]
    unfold initRun
    simp [henc, hsam]
  · rw [h1]
    unfold initRun
    simp [henc, hsam]

/-- Witness for C3: two concrete racing calls from the fresh state share one
pending promise and produce one load attempt per model. -/
theorem init_concurrent_single_load_witness :
    (initBegin none initFresh).2 = .started 0 ∧
    initBegin none (initBegin none initFresh).1 =
      ((initBegin none initFresh).1, .attached 0) ∧
    (initRun none (initBegin none initFresh).1).encoderLoadAttempts = 1 ∧
    (initRun none (initBegin none initFresh).1).samLoadAttempts = 1 :=
  init_concurrent_single_load none none initFresh rfl rfl rfl

/-- C10: `getClicks` hands back a freshly allocated copy of the session's
click array: the returned reference differs from the stored one, holds the
same contents, the stored array is untouched by the call, and any
caller-side mutation through the returned reference leaves the stored click
sequence unchanged. -/
theorem getClicks_copy_frame (sid : String) (ss : String → Option SessionStateR)
    (h : JsHeap) (s : SessionStateR) (v : List Click)
    (hs : ss sid = some s) (hlt : s.clicksRef < h.nextRef) :
    (getClicksR sid ss h).2 = .ok h.nextRef ∧
    h.nextRef ≠ s.clicksRef ∧
    (getClicksR sid ss h).1.arrays h.nextRef = some ((h.arrays s.clicksRef).getD []) ∧
    (getClicksR sid ss h).1.arrays s.clicksRef = h.arrays s.clicksRef ∧
    (heapWrite (getClicksR sid ss h).1 h.nextRef v).arrays s.clicksRef =
      h.arrays s.clicksRef := by
  have hne : h.nextRef ≠ s.clicksRef := by omega
  unfold getClicksR heapAlloc heapWrite
  rw [hs]
  refine ⟨rfl, hne, ?_, ?_, ?_⟩
  · simp
  · simp [Function.update_noteq (Ne.symm hne)]
  · simp [Function.update_noteq (Ne.symm hne)]

/-- Witness for C10: a concrete session whose stored array survives a
mutation of the copy returned by `getClicks`. -/
theorem getClicks_copy_frame_witness :
    (getClicksR "s" ssR0 heap0).2 = .ok 1 ∧
    (1 : Nat) ≠ 0 ∧
    (getClicksR "s" ssR0 heap0).1.arrays 1 = some [⟨1, 2, ClickType.Include⟩] ∧
    (getClicksR "s" ssR0 heap0).1.arrays 0 = heap0.arrays 0 ∧
    (heapWrite (getClicksR "s" ssR0 heap0).1 1 []).arrays 0 = heap0.arrays 0 :=
  getClicks_copy_frame "s" ssR0 heap0
    { imageKey := "img", clicksRef := 0, lastMask := none } [] rfl (by decide)

/-- C9 counterexample: session-identifier generation is not collision-free
over all generator draws.  Two `createSession` calls that draw the same
timestamp and the same random component produce the same identifier, and
the second creation overwrites the first session's stored state: the click
added to the first session is gone afterwards. -/
theorem createSession_collision_cex :
    (createSession img0 5 "abc"
        (addClick (createSession img0 5 "abc" emptyStore).2 1 2 ClickType.Include
          (createSession img0 5 "abc" emptyStore).1).1).2 =
      (createSession img0 5 "abc" emptyStore).2 ∧
    (getClickCount (createSession img0 5 "abc" emptyStore).2
        (createSession img0 5 "abc"
          (addClick (createSession img0 5 "abc" emptyStore).2 1 2 ClickType.Include
            (createSession img0 5 "abc" emptyStore).1).1).1).2 = .ok 0 := by
  constructor
  · rfl
  · simp [createSession, addClick, getClickCount, storeSet, sessionIdOf, imageKeyOf,
      emptyStore]

/-- C9 amended: identifiers generated by `createSession` are distinct
whenever the drawn (timestamp, random-component) pairs differ, and then the
second creation leaves the first session's stored state untouched.
Collision-freedom for arbitrary draws (as originally claimed) fails, see
the counterexample. -/
theorem sessionId_distinct_of_distinct_draws (t₁ t₂ : Nat) (r₁ r₂ : String)
    (image₂ : Image) (ss : SessionStore)
    (hne : t₁ ≠ t₂ ∨ r₁ ≠ r₂) :
    sessionIdOf t₁ r₁ ≠ sessionIdOf t₂ r₂ ∧
    (createSession image₂ t₂ r₂ ss).1 (sessionIdOf t₁ r₁) = ss (sessionIdOf t₁ r₁) := by
  have hid : sessionIdOf t₁ r₁ ≠ sessionIdOf t₂ r₂ := by
    intro h
    rcases sessionIdOf_inj t₁ t₂ r₁ r₂ h with ⟨ht, hr⟩
    rcases hne with hne | hne
    · exact hne ht
    · exact hne hr
  refine ⟨hid, ?_⟩
  unfold createSession storeSet
  simp [hid]

/-- Witness for C9's amended claim: draws differing in the random component
give distinct identifiers and no overwrite. -/
theorem sessionId_distinct_of_distinct_draws_witness :
    sessionIdOf 0 "a" ≠ sessionIdOf 0 "b" ∧
    (createSession img0 0 "b" emptyStore).1 (sessionIdOf 0 "a") =
      emptyStore (sessionIdOf 0 "a") :=
  sessionId_distinct_of_distinct_draws 0 0 "a" "b" img0 emptyStore
    (Or.inr (by decide))

/-- The feed set built from a session's click list: `clickTypeToSamLabel`
composed with `buildSamFeeds`, exactly as `SegmentationSession.segment`
prepares its decoder inputs. -/
def feedsOfClicks {α : Type} (clicks : List Click) (embedding : α)
    (originalWidth originalHeight : ℚ) : SamFeeds α :=
  buildSamFeeds (clicks.map fun c => ⟨c.x, c.y, clickTypeToSamLabel c.type⟩)
    embedding originalWidth originalHeight

/-- The value the `pointCoords` buffer ends up holding at cell `k`, as a
function of `k`: click `k / 2`'s scaled x (even `k`) or y (odd `k`), and 0
for the padding point. -/
def coordV (clicks : List SamClick) (samScale : ℚ) (k : Nat) : ℚ :=
  if k / 2 < clicks.length then
    if k % 2 = 0 then (clicks.getD (k / 2) default).x * samScale
    else (clicks.getD (k / 2) default).y * samScale
  else 0

/-- The value the `pointLabels` buffer ends up holding at cell `k`:
click `k`'s label, and `-1` for the padding point. -/
def labelV (clicks : List SamClick) (k : Nat) : ℚ :=
  if k < clicks.length then (clicks.getD k default).clickType else -1

theorem range_flatMap_pairs (n : Nat) :
    (List.range n).flatMap (fun i => [2 * i, 2 * i + 1]) = List.range (2 * n) := by
  induction n with
  | zero => rfl
  | succ n ih =>
    rw [List.range_succ, List.flatMap_append, ih]
    have h2 : 2 * (n + 1) = 2 * n + 1 + 1 := by ring
    rw [h2, List.range_succ, List.range_succ]
    simp

theorem coordWrites_map_fst (clicks : List SamClick) (samScale : ℚ) :
    (coordWrites clicks samScale).map Prod.fst =
      List.range (2 * clicks.length) ++ [2 * clicks.length, 2 * clicks.length + 1] := by
  unfold coordWrites
  rw [List.map_append, List.map_flatMap]
  simp only [List.map_cons, List.map_nil]
  rw [range_flatMap_pairs]

theorem coordWrites_values (clicks : List SamClick) (samScale : ℚ) :
    ∀ p ∈ coordWrites clicks samScale, p.2 = coordV clicks samScale p.1 := by
  intro p hp
  unfold coordWrites at hp
  rcases List.mem_append.mp hp with hp | hp
  · obtain ⟨i, hi, hpi⟩ := List.mem_flatMap.mp hp
    have hilt : i < clicks.length := List.mem_range.mp hi
    rcases List.mem_cons.mp hpi with rfl | hpi
    · have hdiv : 2 * i / 2 = i := by omega
      have hmod : 2 * i % 2 = 0 := by omega
      simp [coordV, hdiv, hmod, hilt]
    · rcases List.mem_cons.mp hpi with rfl | hpi
      · have hdiv : (2 * i + 1) / 2 = i := by omega
        have hmod : (2 * i + 1) % 2 = 1 := by omega
        simp [coordV, hdiv, hmod, hilt]
      · exact absurd hpi (List.not_mem_nil p)
  · rcases List.mem_cons.mp hp with rfl | hp
    · have hdiv : 2 * clicks.length / 2 = clicks.length := by omega
      simp [coordV, hdiv]
    · rcases List.mem_cons.mp hp with rfl | hp
      · have hdiv : (2 * clicks.length + 1) / 2 = clicks.length := by omega
        simp [coordV, hdiv]
      · exact absurd hp (List.not_mem_nil p)

theorem labelWrites_map_fst (clicks : List SamClick) :
    (labelWrites clicks).map Prod.fst = List.range (clicks.length + 1) := by
  unfold labelWrites
  rw [List.map_append, List.map_map, List.range_succ]
  simp [Function.comp_def]

theorem labelWrites_values (clicks : List SamClick) :
    ∀ p ∈ labelWrites clicks, p.2 = labelV clicks p.1 := by
  intro p hp
  unfold labelWrites at hp
  rcases List.mem_append.mp hp with hp | hp
  · obtain ⟨i, hi, hpi⟩ := List.mem_map.mp hp
    have hilt : i < clicks.length := List.mem_range.mp hi
    rw [← hpi]
    simp [labelV, hilt]
  · rcases List.mem_cons.mp hp with rfl | hp
    · simp [labelV]
    · exact absurd hp (List.not_mem_nil p)

/-- Contents of the `pointCoords` buffer of `buildSamFeeds`. -/
theorem pointCoords_getD (clicks : List SamClick) (samScale : ℚ) (j : Nat) :
    (arrWrites (coordWrites clicks samScale)
        (List.replicate (2 * (clicks.length + 1)) 0)).getD j 0 =
      if j < 2 * (clicks.length + 1) then coordV clicks samScale j else 0 := by
  rw [arrWrites_getD (coordV clicks samScale) _ (coordWrites_values clicks samScale)]
  rw [List.length_replicate, coordWrites_map_fst]
  have hiff : j ∈ List.range (2 * clicks.length) ++
      [2 * clicks.length, 2 * clicks.length + 1] ↔ j < 2 * (clicks.length + 1) := by
    simp only [List.mem_append, List.mem_range, List.mem_cons, List.mem_singleton,
      List.not_mem_nil, or_false]
    omega
  by_cases hj : j < 2 * (clicks.length + 1)
  · rw [if_pos ⟨hiff.mpr hj, hj⟩, if_pos hj]
  · rw [if_neg (fun hc => hj hc.2), if_neg hj, getD_replicate]

/-- Contents of the `pointLabels` buffer of `buildSamFeeds`. -/
theorem pointLabels_getD (clicks : List SamClick) (j : Nat) :
    (arrWrites (labelWrites clicks)
        (List.replicate (clicks.length + 1) 0)).getD j 0 =
      if j < clicks.length + 1 then labelV clicks j else 0 := by
  rw [arrWrites_getD (labelV clicks) _ (labelWrites_values clicks)]
  rw [List.length_replicate, labelWrites_map_fst]
  by_cases hj : j < clicks.length + 1
  · rw [if_pos ⟨List.mem_range.mpr hj, hj⟩, if_pos hj]
  · rw [if_neg (fun hc => hj (List.mem_range.mp hc.1)), if_neg hj, getD_replicate]

/-- Reading through `List.map` with `getD` at an in-range index. -/
theorem getD_map_click (f : Click → SamClick) (l : List Click) (i : Nat)
    (h : i < l.length) (d : Click) :
    (l.map f).getD i default = f (l.getD i d) := by
  simp [List.getD_eq_getElem?_getD, List.getElem?_map, List.getElem?_eq_getElem h]

/-- C4: for every click list of length `n` and cached dimensions `(w, h)`,
the feed builder produces a `[1, n+1, 2]` point-coordinate tensor whose
first `n` points are the clicks scaled by `1024 / max w h`, a `[1, n+1]`
point-label tensor mapping Include to 1 and Exclude to 0, exactly one
appended padding point at `(0,0)` with label `-1`, and the embedding passed
through unchanged. -/
theorem buildSamFeeds_contract {α : Type} (clicks : List Click) (embedding : α)
    (w h : ℚ) (i : Nat) (hi : i < clicks.length) :
    (feedsOfClicks clicks embedding w h).point_coords.dims = [1, clicks.length + 1, 2] ∧
    (feedsOfClicks clicks embedding w h).point_labels.dims = [1, clicks.length + 1] ∧
    (feedsOfClicks clicks embedding w h).point_coords.data.getD (2 * i) 0 =
      (clicks.getD i default).x * (1024 / max w h) ∧
    (feedsOfClicks clicks embedding w h).point_coords.data.getD (2 * i + 1) 0 =
      (clicks.getD i default).y * (1024 / max w h) ∧
    (feedsOfClicks clicks embedding w h).point_labels.data.getD i 0 =
      (if (clicks.getD i default).type = ClickType.Include then 1 else 0) ∧
    (feedsOfClicks clicks embedding w h).point_coords.data.getD (2 * clicks.length) 0 = 0 ∧
    (feedsOfClicks clicks embedding w h).point_coords.data.getD
      (2 * clicks.length + 1) 0 = 0 ∧
    (feedsOfClicks clicks embedding w h).point_labels.data.getD clicks.length 0 = -1 ∧
    (feedsOfClicks clicks embedding w h).image_embeddings = embedding := by
  have hlen : (clicks.map fun c =>
      (⟨c.x, c.y, clickTypeToSamLabel c.type⟩ : SamClick)).length = clicks.length :=
    List.length_map clicks _
  set samClicks := clicks.map fun c =>
    (⟨c.x, c.y, clickTypeToSamLabel c.type⟩ : SamClick) with hsam
  have hi' : i < samClicks.length := by omega
  have hscale : (1024 : ℚ) / max w h = 1024 / max w h := rfl
  refine ⟨?_, ?_, ?_, ?_, ?_, ?_, ?_, ?_, rfl⟩
  · show [1, samClicks.length + 1, 2] = [1, clicks.length + 1, 2]
    rw [hlen]
  · show [1, samClicks.length + 1] = [1, clicks.length + 1]
    rw [hlen]
  · show (arrWrites (coordWrites samClicks (1024 / max w h))
        (List.replicate (2 * (samClicks.length + 1)) 0)).getD (2 * i) 0 =
      (clicks.getD i default).x * (1024 / max w h)
    rw [pointCoords_getD, if_pos (by omega)]
    have hdiv : 2 * i / 2 = i := by omega
    have hmod : 2 * i % 2 = 0 := by omega
    rw [coordV, hdiv, if_pos hi', if_pos hmod, hsam,
      getD_map_click _ clicks i hi default]
  · show (arrWrites (coordWrites samClicks (1024 / max w h))
        (List.replicate (2 * (samClicks.length + 1)) 0)).getD (2 * i + 1) 0 =
      (clicks.getD i default).y * (1024 / max w h)
    rw [pointCoords_getD, if_pos (by omega)]
    have hdiv : (2 * i + 1) / 2 = i := by omega
    have hmod : ¬(2 * i + 1) % 2 = 0 := by omega
    rw [coordV, hdiv, if_pos hi', if_neg hmod, hsam,
      getD_map_click _ clicks i hi default]
  · show (arrWrites (labelWrites samClicks)
        (List.replicate (samClicks.length + 1) 0)).getD i 0 =
      (if (clicks.getD i default).type = ClickType.Include then 1 else 0)
    rw [pointLabels_getD, if_pos (by omega), labelV, if_pos hi', hsam,
      getD_map_click _ clicks i hi default]
    rfl
  · show (arrWrites (coordWrites samClicks (1024 / max w h))
        (List.replicate (2 * (samClicks.length + 1)) 0)).getD (2 * clicks.length) 0 = 0
    rw [pointCoords_getD, if_pos (by omega), coordV]
    have hdiv : 2 * clicks.length / 2 = clicks.length := by omega
    rw [hdiv, if_neg (by omega)]
  · show (arrWrites (coordWrites samClicks (1024 / max w h))
        (List.replicate (2 * (samClicks.length + 1)) 0)).getD
          (2 * clicks.length + 1) 0 = 0
    rw [pointCoords_getD, if_pos (by omega), coordV]
    have hdiv : (2 * clicks.length + 1) / 2 = clicks.length := by omega
    rw [hdiv, if_neg (by omega)]
  · show (arrWrites (labelWrites samClicks)
        (List.replicate (samClicks.length + 1) 0)).getD clicks.length 0 = -1
    rw [pointLabels_getD, if_pos (by omega), labelV, if_neg (by omega)]

/-- A concrete two-click list. -/
def clicks2 : List Click :=
  [⟨10, 20, ClickType.Include⟩, ⟨5, 6, ClickType.Exclude⟩]

/-- Witness for C4: the feed builder on two concrete clicks over a 100×50
image. -/
theorem buildSamFeeds_contract_witness :
    (feedsOfClicks clicks2 (0 : Nat) 100 50).point_coords.dims = [1, 3, 2] ∧
    (feedsOfClicks clicks2 (0 : Nat) 100 50).point_labels.dims = [1, 3] ∧
    (feedsOfClicks clicks2 (0 : Nat) 100 50).point_coords.data.getD 2 0 =
      5 * (1024 / max 100 50) ∧
    (feedsOfClicks clicks2 (0 : Nat) 100 50).point_coords.data.getD 3 0 =
      6 * (1024 / max 100 50) ∧
    (feedsOfClicks clicks2 (0 : Nat) 100 50).point_labels.data.getD 1 0 = 0 ∧
    (feedsOfClicks clicks2 (0 : Nat) 100 50).point_coords.data.getD 4 0 = 0 ∧
    (feedsOfClicks clicks2 (0 : Nat) 100 50).point_coords.data.getD 5 0 = 0 ∧
    (feedsOfClicks clicks2 (0 : Nat) 100 50).point_labels.data.getD 2 0 = -1 ∧
    (feedsOfClicks clicks2 (0 : Nat) 100 50).image_embeddings = 0 :=
  buildSamFeeds_contract clicks2 (0 : Nat) 100 50 1 (by decide)

/-- Decomposition of a CHW plane index: `c*(T*T) + y*T + x` decodes back to
`(c, y, x)` when `y` and `x` are within the `T×T` plane. -/
theorem encode_decode (T c y x : Nat) (hT : 0 < T) (hy : y < T) (hx : x < T) :
    (c * (T * T) + y * T + x) / (T * T) = c ∧
    (c * (T * T) + y * T + x) % (T * T) = y * T + x ∧
    (y * T + x) / T = y ∧ (y * T + x) % T = x := by
  have hr : y * T + x < T * T := by
    calc y * T + x < y * T + T := by omega
      _ = (y + 1) * T := by ring
      _ ≤ T * T := Nat.mul_le_mul hy (Nat.le_refl T)
  have hsplit : c * (T * T) + y * T + x = T * T * c + (y * T + x) := by ring
  have hyx : y * T + x = T * y + x := by ring
  refine ⟨?_, ?_, ?_, ?_⟩
  · rw [hsplit, Nat.mul_add_div (by positivity), Nat.div_eq_of_lt hr, Nat.add_zero]
  · rw [hsplit, Nat.mul_add_mod, Nat.mod_eq_of_lt hr]
  · rw [hyx, Nat.mul_add_div hT, Nat.div_eq_of_lt hx, Nat.add_zero]
  · rw [hyx, Nat.mul_add_mod, Nat.mod_eq_of_lt hx]

/-- The value the CHW buffer ends up holding at flat index `k`, as a
function of `k` alone: channel `k / (T*T)`'s normalized pixel at the plane
position `k % (T*T)`. -/
def chwV (newW T : Nat) (pix : Nat → ℚ) (k : Nat) : ℚ :=
  (pix ((k % (T * T) / T * newW + k % (T * T) % T) * 4 + k / (T * T)) -
    PIXEL_MEAN.getD (k / (T * T)) 0) / PIXEL_STD.getD (k / (T * T)) 0

theorem chwWrites_values (newW newH T : Nat) (pix : Nat → ℚ)
    (hW : newW ≤ T) (hH : newH ≤ T) (hT : 0 < T) :
    ∀ p ∈ chwWrites newW newH T pix, p.2 = chwV newW T pix p.1 := by
  intro p hp
  unfold chwWrites at hp
  obtain ⟨y, hy, hp⟩ := List.mem_flatMap.mp hp
  obtain ⟨x, hx, hp⟩ := List.mem_flatMap.mp hp
  have hyT : y < T := lt_of_lt_of_le (List.mem_range.mp hy) hH
  have hxT : x < T := lt_of_lt_of_le (List.mem_range.mp hx) hW
  rcases List.mem_cons.mp hp with rfl | hp
  · have h := encode_decode T 0 y x hT hyT hxT
    unfold chwV
    rw [h.2.1, h.2.2.1, h.2.2.2, h.1]
    norm_num
  · rcases List.mem_cons.mp hp with rfl | hp
    · have h := encode_decode T 1 y x hT hyT hxT
      unfold chwV
      rw [h.2.1, h.2.2.1, h.2.2.2, h.1]
    · rcases List.mem_cons.mp hp with rfl | hp
      · have h := encode_decode T 2 y x hT hyT hxT
        unfold chwV
        rw [h.2.1, h.2.2.1, h.2.2.2, h.1]
      · exact absurd hp (List.not_mem_nil p)

theorem chwWrites_mem (newW newH T : Nat) (pix : Nat → ℚ)
    (hW : newW ≤ T) (hH : newH ≤ T) (hT : 0 < T)
    (c y x : Nat) (hc : c < 3) (hy : y < T) (hx : x < T) :
    ((c * (T * T) + y * T + x) ∈ (chwWrites newW newH T pix).map Prod.fst) ↔
      (y < newH ∧ x < newW) := by
  constructor
  · intro hmem
    obtain ⟨p, hp, hfst⟩ := List.mem_map.mp hmem
    unfold chwWrites at hp
    obtain ⟨y', hy', hp⟩ := List.mem_flatMap.mp hp
    obtain ⟨x', hx', hp⟩ := List.mem_flatMap.mp hp
    have hy'r : y' < newH := List.mem_range.mp hy'
    have hx'r : x' < newW := List.mem_range.mp hx'
    have hy'T : y' < T := lt_of_lt_of_le hy'r hH
    have hx'T : x' < T := lt_of_lt_of_le hx'r hW
    have hkey : ∃ c', p.1 = c' * (T * T) + y' * T + x' := by
      rcases List.mem_cons.mp hp with rfl | hp
      · exact ⟨0, rfl⟩
      · rcases List.mem_cons.mp hp with rfl | hp
        · exact ⟨1, rfl⟩
        · rcases List.mem_cons.mp hp with rfl | hp
          · exact ⟨2, rfl⟩
          · exact absurd hp (List.not_mem_nil p)
    obtain ⟨c', hc'⟩ := hkey
    rw [hc'] at hfst
    have hdec := encode_decode T c y x hT hy hx
    have hdec' := encode_decode T c' y' x' hT hy'T hx'T
    have e1 : y' * T + x' = y * T + x := by
      have := congrArg (fun k => k % (T * T)) hfst
      simpa [hdec.2.1, hdec'.2.1] using this
    have ey : y' = y := by
      have := congrArg (fun k => k / T) e1
      simpa [hdec.2.2.1, hdec'.2.2.1] using this
    have ex : x' = x := by
      have := congrArg (fun k => k % T) e1
      simpa [hdec.2.2.2, hdec'.2.2.2] using this
    exact ⟨ey ▸ hy'r, ex ▸ hx'r⟩
  · rintro ⟨hyH, hxW⟩
    apply List.mem_map.mpr
    unfold chwWrites
    interval_cases c
    · exact ⟨_, List.mem_flatMap.mpr ⟨y, List.mem_range.mpr hyH,
        List.mem_flatMap.mpr ⟨x, List.mem_range.mpr hxW, List.mem_cons_self _ _⟩⟩, rfl⟩
    · exact ⟨_, List.mem_flatMap.mpr ⟨y, List.mem_range.mpr hyH,
        List.mem_flatMap.mpr ⟨x, List.mem_range.mpr hxW,
          List.mem_cons_of_mem _ (List.mem_cons_self _ _)⟩⟩, rfl⟩
    · exact ⟨_, List.mem_flatMap.mpr ⟨y, List.mem_range.mpr hyH,
        List.mem_flatMap.mpr ⟨x, List.mem_range.mpr hxW,
          List.mem_cons_of_mem _ (List.mem_cons_of_mem _ (List.mem_cons_self _ _))⟩⟩, rfl⟩

theorem floor_nat_add_half (n : Nat) : ⌊(n : ℚ) + 1 / 2⌋ = n := by
  rw [Int.floor_eq_iff]
  constructor
  · push_cast
    linarith
  · push_cast
    linarith

theorem jsRound_toNat_le {q : ℚ} {T : Nat} (h : q ≤ T) : (jsRound q).toNat ≤ T := by
  unfold jsRound
  rw [Int.toNat_le]
  calc ⌊q + 1 / 2⌋ ≤ ⌊(T : ℚ) + 1 / 2⌋ := Int.floor_le_floor (by linarith)
    _ = T := floor_nat_add_half T

theorem newWidthOf_le (image : Image) (T : Nat)
    (hw : 0 < image.origWidth) :
    newWidthOf image T ≤ T := by
  unfold newWidthOf preScale
  apply jsRound_toNat_le
  have hM0 : 0 < max image.origWidth image.origHeight :=
    lt_of_lt_of_le hw (le_max_left _ _)
  have hMQ : (0 : ℚ) < ((max image.origWidth image.origHeight : Nat) : ℚ) := by
    exact_mod_cast hM0
  have hwM : (image.origWidth : ℚ) ≤ ((max image.origWidth image.origHeight : Nat) : ℚ) := by
    exact_mod_cast le_max_left image.origWidth image.origHeight
  calc (image.origWidth : ℚ) * ((T : ℚ) / ((max image.origWidth image.origHeight : Nat) : ℚ))
      ≤ ((max image.origWidth image.origHeight : Nat) : ℚ) *
        ((T : ℚ) / ((max image.origWidth image.origHeight : Nat) : ℚ)) := by
        apply mul_le_mul_of_nonneg_right hwM
        positivity
    _ = T := by field_simp

theorem newHeightOf_le (image : Image) (T : Nat)
    (hh : 0 < image.origHeight) :
    newHeightOf image T ≤ T := by
  unfold newHeightOf preScale
  apply jsRound_toNat_le
  have hM0 : 0 < max image.origWidth image.origHeight :=
    lt_of_lt_of_le hh (le_max_right _ _)
  have hMQ : (0 : ℚ) < ((max image.origWidth image.origHeight : Nat) : ℚ) := by
    exact_mod_cast hM0
  have hhM : (image.origHeight : ℚ) ≤ ((max image.origWidth image.origHeight : Nat) : ℚ) := by
    exact_mod_cast le_max_right image.origWidth image.origHeight
  calc (image.origHeight : ℚ) * ((T : ℚ) / ((max image.origWidth image.origHeight : Nat) : ℚ))
      ≤ ((max image.origWidth image.origHeight : Nat) : ℚ) *
        ((T : ℚ) / ((max image.origWidth image.origHeight : Nat) : ℚ)) := by
        apply mul_le_mul_of_nonneg_right hhM
        positivity
    _ = T := by field_simp

theorem newWidthOf_eq_of_le (image : Image) (T : Nat)
    (hw : 0 < image.origWidth) (hle : image.origHeight ≤ image.origWidth) :
    newWidthOf image T = T := by
  unfold newWidthOf preScale jsRound
  rw [max_eq_left hle]
  have hw0 : ((image.origWidth : Nat) : ℚ) ≠ 0 := Nat.cast_ne_zero.mpr hw.ne'
  have hcancel : (image.origWidth : ℚ) * ((T : ℚ) / (image.origWidth : ℚ)) = T := by
    field_simp
  rw [hcancel, floor_nat_add_half]
  exact Int.toNat_natCast T

theorem newHeightOf_eq_of_le (image : Image) (T : Nat)
    (hh : 0 < image.origHeight) (hle : image.origWidth ≤ image.origHeight) :
    newHeightOf image T = T := by
  unfold newHeightOf preScale jsRound
  rw [max_eq_right hle]
  have hh0 : ((image.origHeight : Nat) : ℚ) ≠ 0 := Nat.cast_ne_zero.mpr hh.ne'
  have hcancel : (image.origHeight : ℚ) * ((T : ℚ) / (image.origHeight : ℚ)) = T := by
    field_simp
  rw [hcancel, floor_nat_add_half]
  exact Int.toNat_natCast T

/-- C5: for every source image and target edge length `T`, the preprocessor
yields a `[1, 3, T, T]` channel-major tensor; every cell inside the resized
region holds `(pixel - PIXEL_MEAN[c]) / PIXEL_STD[c]`, every trailing-edge
padding cell stays exactly 0, and the longer source dimension maps to `T`
pixels after scaling. -/
theorem preprocess_contract (image : Image) (T : Nat) (hT : 0 < T)
    (hw : 0 < image.origWidth) (hh : 0 < image.origHeight)
    (c y x : Nat) (hc : c < 3) (hy : y < T) (hx : x < T) :
    (preprocessImageForEncoder image T).tensor.dims = [1, 3, T, T] ∧
    (preprocessImageForEncoder image T).tensor.data.length = 3 * T * T ∧
    (preprocessImageForEncoder image T).originalWidth = image.origWidth ∧
    (preprocessImageForEncoder image T).originalHeight = image.origHeight ∧
    (image.origHeight ≤ image.origWidth → newWidthOf image T = T) ∧
    (image.origWidth ≤ image.origHeight → newHeightOf image T = T) ∧
    (preprocessImageForEncoder image T).tensor.data.getD (c * (T * T) + y * T + x) 0 =
      (if y < newHeightOf image T ∧ x < newWidthOf image T then
        (image.resizedData (newWidthOf image T) (newHeightOf image T)
            ((y * newWidthOf image T + x) * 4 + c) - PIXEL_MEAN.getD c 0) /
          PIXEL_STD.getD c 0
      else 0) := by
  have hW := newWidthOf_le image T hw
  have hH := newHeightOf_le image T hh
  refine ⟨rfl, ?_, rfl, rfl, fun hle => newWidthOf_eq_of_le image T hw hle,
    fun hle => newHeightOf_eq_of_le image T hh hle, ?_⟩
  · show (arrWrites (chwWrites (newWidthOf image T) (newHeightOf image T) T
        (image.resizedData (newWidthOf image T) (newHeightOf image T)))
        (List.replicate (3 * T * T) 0)).length = 3 * T * T
    rw [arrWrites_length, List.length_replicate]
  · show (arrWrites (chwWrites (newWidthOf image T) (newHeightOf image T) T
        (image.resizedData (newWidthOf image T) (newHeightOf image T)))
        (List.replicate (3 * T * T) 0)).getD (c * (T * T) + y * T + x) 0 = _
    rw [arrWrites_getD
        (chwV (newWidthOf image T) T
          (image.resizedData (newWidthOf image T) (newHeightOf image T))) _
        (chwWrites_values _ _ _ _ hW hH hT),
      List.length_replicate]
    have hbound : c * (T * T) + y * T + x < 3 * T * T := by
      have h1 : y * T + x < T * T := by
        calc y * T + x < y * T + T := by omega
          _ = (y + 1) * T := by ring
          _ ≤ T * T := Nat.mul_le_mul hy (Nat.le_refl T)
      have h2 : 3 * T * T = 3 * (T * T) := by ring
      rw [h2]
      interval_cases c <;> omega
    have hmem := chwWrites_mem (newWidthOf image T) (newHeightOf image T) T
      (image.resizedData (newWidthOf image T) (newHeightOf image T))
      hW hH hT c y x hc hy hx
    by_cases hcase : y < newHeightOf image T ∧ x < newWidthOf image T
    · rw [if_pos ⟨hmem.mpr hcase, hbound⟩, if_pos hcase]
      have hdec := encode_decode T c y x hT hy hx
      unfold chwV
      rw [hdec.2.1, hdec.2.2.1, hdec.2.2.2, hdec.1]
    · rw [if_neg (fun hcon => hcase (hmem.mp hcon.1)), if_neg hcase, getD_replicate]

/-- A concrete 2×1 canvas image for the preprocessor witness. -/
def imgW : Image := .canvas 2 1 (fun _ _ i => (i : ℚ))

/-- Witness for C5: the preprocessor contract at a concrete 2×1 canvas with
target edge 2, channel 0, cell (y, x) = (0, 1). -/
theorem preprocess_contract_witness :
    (preprocessImageForEncoder imgW 2).tensor.dims = [1, 3, 2, 2] ∧
    (preprocessImageForEncoder imgW 2).tensor.data.length = 3 * 2 * 2 ∧
    (preprocessImageForEncoder imgW 2).originalWidth = imgW.origWidth ∧
    (preprocessImageForEncoder imgW 2).originalHeight = imgW.origHeight ∧
    (imgW.origHeight ≤ imgW.origWidth → newWidthOf imgW 2 = 2) ∧
    (imgW.origWidth ≤ imgW.origHeight → newHeightOf imgW 2 = 2) ∧
    (preprocessImageForEncoder imgW 2).tensor.data.getD (0 * (2 * 2) + 0 * 2 + 1) 0 =
      (if 0 < newHeightOf imgW 2 ∧ 1 < newWidthOf imgW 2 then
        (imgW.resizedData (newWidthOf imgW 2) (newHeightOf imgW 2)
            ((0 * newWidthOf imgW 2 + 1) * 4 + 0) - PIXEL_MEAN.getD 0 0) /
          PIXEL_STD.getD 0 0
      else 0) :=
  preprocess_contract imgW 2 (by decide) (by decide) (by decide) 0 0 1
    (by decide) (by decide) (by decide)

/-- C1: after a successful `precomputeEmbedding`, a `segment` call that
resolves the same image identity finds the cached entry and reuses its
stored embedding and original dimensions: the resulting state differs only
in the decoder-run counter (no preprocessor or encoder invocation, no cache
write), and the decoder is fed the cached embedding and dimensions. -/
theorem precompute_then_segment_reuses_cache {α : Type} (enc : TensorQ → α)
    (dec : SamFeeds α → TensorQ) (image : Image) (t₁ t₂ : Nat)
    (clicks : List SamClick) (st st₁ : CoreState α) (key : String)
    (hpre : precomputeEmbedding enc image t₁ st = (st₁, .ok key))
    (hkey : imageKeyOf image t₂ = key)
    (hsam : st₁.samLoaded = true) :
    ∃ entry, st₁.embeddingCache key = some entry ∧
      segment enc dec image t₂ clicks st₁ =
        ({ st₁ with decoderRuns := st₁.decoderRuns + 1 },
         .ok (maskToImageData
            (dec (buildSamFeeds clicks entry.embedding
              (entry.originalWidth : ℚ) (entry.originalHeight : ℚ))).data
            ((dec (buildSamFeeds clicks entry.embedding
              (entry.originalWidth : ℚ) (entry.originalHeight : ℚ))).dims.getD 3 0)
            ((dec (buildSamFeeds clicks entry.embedding
              (entry.originalWidth : ℚ) (entry.originalHeight : ℚ))).dims.getD 2 0))) := by
  unfold precomputeEmbedding at hpre
  cases henc : st.encoderLoaded with
  | false =>
    rw [henc] at hpre
    simp at hpre
  | true =>
    rw [henc] at hpre
    simp only [Bool.not_true, Bool.false_eq_true, if_false] at hpre
    by_cases hhit : (st.embeddingCache (imageKeyOf image t₁)).isSome
    · rw [if_pos hhit] at hpre
      have hpre' : st = st₁ ∧ imageKeyOf image t₁ = key := by
        simpa using hpre
      obtain ⟨hst, hk⟩ := hpre'
      subst hst
      subst hk
      obtain ⟨e, he⟩ := Option.isSome_iff_exists.mp hhit
      refine ⟨e, he, ?_⟩
      unfold segment runDecoder
      rw [hkey]
      simp [henc, hsam, he]
    · rw [if_neg hhit] at hpre
      have hpre' :
          ({ embeddingCache :=
                cacheSet st.embeddingCache (imageKeyOf image t₁)
                  ⟨enc (preprocessImageForEncoder image ENCODER_INPUT_SIZE).tensor,
                   (preprocessImageForEncoder image ENCODER_INPUT_SIZE).originalWidth,
                   (preprocessImageForEncoder image ENCODER_INPUT_SIZE).originalHeight⟩,
              encoderLoaded := true,
              samLoaded := st.samLoaded,
              preprocessRuns := st.preprocessRuns + 1,
              encoderRuns := st.encoderRuns + 1,
              decoderRuns := st.decoderRuns }
            : CoreState α) = st₁ ∧ imageKeyOf image t₁ = key := by
        simpa using hpre
      obtain ⟨hst, hk⟩ := hpre'
      subst hst
      subst hk
      refine ⟨⟨enc (preprocessImageForEncoder image ENCODER_INPUT_SIZE).tensor,
        (preprocessImageForEncoder image ENCODER_INPUT_SIZE).originalWidth,
        (preprocessImageForEncoder image ENCODER_INPUT_SIZE).originalHeight⟩, ?_, ?_⟩
      · show cacheSet st.embeddingCache (imageKeyOf image t₁) _ (imageKeyOf image t₁) =
          some _
        unfold cacheSet
        simp
      · unfold segment runDecoder
        rw [hkey]
        simp [henc, hsam, cacheSet] at hsam ⊢
        simp [henc, hsam, cacheSet]

/-- A core state whose cache already holds an embedding for `img0`. -/
def stC : CoreState Nat :=
  { st0 with embeddingCache := fun k => if k = "img" then some ⟨7, 4, 2⟩ else none }

/-- Witness for C1: a concrete precompute followed by a segment of the same
image element at a later wall-clock time reuses the cached entry. -/
theorem precompute_then_segment_reuses_cache_witness :
    ∃ entry, stC.embeddingCache "img" = some entry ∧
      segment enc0 dec0 img0 1 [] stC =
        ({ stC with decoderRuns := stC.decoderRuns + 1 },
         .ok (maskToImageData
            (dec0 (buildSamFeeds [] entry.embedding
              (entry.originalWidth : ℚ) (entry.originalHeight : ℚ))).data
            ((dec0 (buildSamFeeds [] entry.embedding
              (entry.originalWidth : ℚ) (entry.originalHeight : ℚ))).dims.getD 3 0)
            ((dec0 (buildSamFeeds [] entry.embedding
              (entry.originalWidth : ℚ) (entry.originalHeight : ℚ))).dims.getD 2 0))) :=
  precompute_then_segment_reuses_cache enc0 dec0 img0 0 1 [] stC stC "img" rfl rfl rfl

end MiniSAM
